import Mathlib

/-!
# Verification of the trigram language model (`src/.../ngram_model.py`)

Shallow embedding of the `TrigramModel` class: Python dicts are modelled as
insertion-ordered association lists, the entropy source of `random.choices`
as a stream `ℕ → ℚ` together with a position counter (one draw advances the
position by one), and strings as Lean `String`s over their character lists.
-/

set_option maxRecDepth 10000

/-- `TrigramModel.START_TOKEN`. -/
def START_TOKEN : String := "<start>"

/-- `TrigramModel.END_TOKEN`. -/
def END_TOKEN : String := "<end>"

/-- `TrigramModel.UNK_TOKEN`. -/
def UNK_TOKEN : String := "<unk>"

/-- Lookup in a Python dict modelled as an insertion-ordered association list. -/
def dget {α : Type} : List (String × α) → String → Option α
  | [], _ => none
  | (k, v) :: rest, key => if k = key then some v else dget rest key

/-- Update/insert in a Python dict modelled as an insertion-ordered association list. -/
def dset {α : Type} : List (String × α) → String → α → List (String × α)
  | [], key, v => [(key, v)]
  | (k, w) :: rest, key, v =>
    if k = key then (key, v) :: rest else (k, w) :: dset rest key v

/-- The character class matched by Python's regex `\s` (ASCII part):
space, tab, newline, carriage return, vertical tab, form feed. -/
def isPySpace (c : Char) : Bool :=
  c.toNat = 32 || c.toNat = 9 || c.toNat = 10 || c.toNat = 13 ||
    c.toNat = 11 || c.toNat = 12

/-- Model of Python's `str.lower` on a single character (ASCII range). -/
def pyToLower (c : Char) : Char :=
  if h : 65 ≤ c.toNat ∧ c.toNat ≤ 90 then
    Char.ofNatAux (c.toNat + 32) (Or.inl (by omega))
  else c

/-- `re.sub(r'\s+', ' ', text)`, one character at a time: the flag records
whether we are inside a whitespace run whose single `' '` was already
emitted. -/
def collapseWsAux : Bool → List Char → List Char
  | _, [] => []
  | inRun, c :: rest =>
    if isPySpace c then
      if inRun then collapseWsAux true rest
      else ' ' :: collapseWsAux true rest
    else c :: collapseWsAux false rest

/-- `re.sub(r'\s+', ' ', text)`: every run of whitespace becomes one space. -/
def collapseWs (l : List Char) : List Char :=
  collapseWsAux false l

/-- Python's `str.strip()`: drop whitespace from both ends. -/
def pyStrip (l : List Char) : List Char :=
  ((l.dropWhile isPySpace).reverse.dropWhile isPySpace).reverse

/-- `TrigramModel._clean_text`: lowercase, collapse whitespace runs to a
single space, strip. -/
def clean_text (s : String) : String :=
  ⟨pyStrip (collapseWs (s.data.map pyToLower))⟩

/-- Python's `str.split()` (no separator), one character at a time: `acc`
holds the reversed characters of the word currently being read. -/
def pyWordsAux : List Char → List Char → List (List Char)
  | acc, [] => if acc = [] then [] else [acc.reverse]
  | acc, c :: rest =>
    if isPySpace c then
      if acc = [] then pyWordsAux [] rest
      else acc.reverse :: pyWordsAux [] rest
    else pyWordsAux (c :: acc) rest

/-- Python's `str.split()` (no separator): maximal non-whitespace runs. -/
def pyWords (l : List Char) : List (List Char) :=
  pyWordsAux [] l

/-- `TrigramModel._tokenize`: split the (cleaned) text on whitespace. -/
def tokenize (s : String) : List String :=
  (pyWords s.data).map String.mk

/-- One inner level of the nested count dictionary. -/
abbrev InnerCounts := List (String × ℕ)

/-- The middle level of the nested count dictionary. -/
abbrev MidCounts := List (String × InnerCounts)

/-- The trigram count table `counts[w1][w2][w3]`. -/
abbrev Counts := List (String × MidCounts)

/-- The vocabulary dictionary `vocab[word] = count`. -/
abbrev Vocab := List (String × ℕ)

/-- `d[k] += 1` on a `defaultdict(int)`. -/
def bump (l : List (String × ℕ)) (k : String) : List (String × ℕ) :=
  dset l k ((dget l k).getD 0 + 1)

/-- `self.counts[w1][w2][w3] += 1` with defaultdict auto-vivification. -/
def incrTrigram (counts : Counts) (w1 w2 w3 : String) : Counts :=
  let inner1 := (dget counts w1).getD []
  let inner2 := (dget inner1 w2).getD []
  dset counts w1 (dset inner1 w2 (bump inner2 w3))

/-- The sliding window of the trigram counting loop: `w1`, `w2` are the two
tokens before the remaining suffix. -/
def countTrigramsAux : Counts → String → String → List String → Counts
  | counts, _, _, [] => counts
  | counts, w1, w2, w3 :: rest =>
    countTrigramsAux (incrTrigram counts w1 w2 w3) w2 w3 rest

/-- The trigram counting loop of `TrigramModel.fit` (step 5):
`for i in range(len(padded_tokens) - 2): counts[w1][w2][w3] += 1`. -/
def countTrigrams (counts : Counts) : List String → Counts
  | w1 :: w2 :: rest => countTrigramsAux counts w1 w2 rest
  | _ => counts

/-- Membership test `token in [START_TOKEN, END_TOKEN, UNK_TOKEN]`. -/
def isSpecialTok (t : String) : Bool :=
  t = START_TOKEN || t = END_TOKEN || t = UNK_TOKEN

/-- Pass 1 of `_handle_unknown_words`: `word_counts[token]` of the
defaultdict built over all non-special tokens (0 for special tokens). -/
def rawCount (tokens : List String) (w : String) : ℕ :=
  (tokens.filter (fun t => !isSpecialTok t)).count w

/-- Pass 2 of `TrigramModel._handle_unknown_words`: rewrite the sequence
(with `all` the full sequence used by pass 1) while updating the vocabulary. -/
def handle_unknown_words_aux (thr : ℕ) (all : List String) :
    Vocab → List String → List String × Vocab
  | vocab, [] => ([], vocab)
  | vocab, t :: rest =>
    if t = START_TOKEN || t = END_TOKEN then
      let r := handle_unknown_words_aux thr all vocab rest
      (t :: r.1, r.2)
    else if rawCount all t ≤ thr then
      let r := handle_unknown_words_aux thr all (bump vocab UNK_TOKEN) rest
      (UNK_TOKEN :: r.1, r.2)
    else
      let r := handle_unknown_words_aux thr all (bump vocab t) rest
      (t :: r.1, r.2)

/-- The token sequence produced by `TrigramModel._handle_unknown_words`. -/
def substTokens (thr : ℕ) (tokens : List String) : List String :=
  (handle_unknown_words_aux thr tokens [] tokens).1

/-- `TrigramModel._add_padding`: two `START` in front, one `END` at the back;
empty sequences stay empty. -/
def add_padding (tokens : List String) : List String :=
  if tokens = [] then []
  else START_TOKEN :: START_TOKEN :: (tokens ++ [END_TOKEN])

/-- `not text or not text.strip()`: the text is empty or all whitespace. -/
def pyBlank (s : String) : Bool :=
  s.data.all isPySpace

/-- The state of a `TrigramModel` instance. -/
structure Model where
  counts : Counts
  vocab : Vocab
  unk_threshold : ℕ
  trained : Bool
deriving DecidableEq

/-- `TrigramModel.__init__`. -/
def mkModel (thr : ℕ) : Model :=
  { counts := [], vocab := [], unk_threshold := thr, trained := false }

/-- `TrigramModel.fit`. -/
def fit (m : Model) (text : String) : Model :=
  if pyBlank text then { m with trained := true }
  else
    let tokens := tokenize (clean_text text)
    let r := handle_unknown_words_aux m.unk_threshold tokens m.vocab tokens
    let padded := add_padding r.1
    { m with counts := countTrigrams m.counts padded, vocab := r.2,
             trained := true }

/-- `TrigramModel._get_next_word_probabilities`. -/
def get_next_word_probabilities (counts : Counts) (w1 w2 : String) :
    List (String × ℚ) :=
  match dget counts w1 with
  | none => []
  | some inner =>
    match dget inner w2 with
    | none => []
    | some ctx =>
      let total : ℕ := (ctx.map Prod.snd).sum
      if total = 0 then []
      else ctx.map (fun p => (p.1, (p.2 : ℚ) / (total : ℚ)))

/-- Model of `random.choices(words, weights=probs, k=1)[0]`: walk the
weight list, consuming the draw `u`. -/
def pickWeighted : List (String × ℚ) → ℚ → String
  | [], _ => END_TOKEN
  | [(w, _)], _ => w
  | (w, p) :: q :: rest, u => if u < p then w else pickWeighted (q :: rest) (u - p)

/-- `TrigramModel._sample_next_word`; the entropy source is a stream of
draws `entropy` read at position `pos`, which a real draw advances. -/
def sample_next_word (counts : Counts) (w1 w2 : String)
    (entropy : ℕ → ℚ) (pos : ℕ) : String × ℕ :=
  let probs := get_next_word_probabilities counts w1 w2
  if probs = [] then (END_TOKEN, pos)
  else (pickWeighted probs (entropy pos), pos + 1)

/-- The `while length < max_length` loop of `TrigramModel.generate`. -/
def genLoop (counts : Counts) (entropy : ℕ → ℚ) :
    String → String → ℕ → ℕ → List String × ℕ
  | _, _, pos, 0 => ([], pos)
  | w1, w2, pos, fuel + 1 =>
    let s := sample_next_word counts w1 w2 entropy pos
    if s.1 = END_TOKEN then ([], s.2)
    else
      let r := genLoop counts entropy w2 s.1 s.2 fuel
      (if s.1 = START_TOKEN then r.1 else s.1 :: r.1, r.2)

/-- `TrigramModel.generate`, before joining: the emitted word list. -/
def generateWords (m : Model) (max_length : ℕ)
    (seed_text : Option (String × String)) (entropy : ℕ → ℚ) (pos : ℕ) :
    List String × ℕ :=
  if m.trained = false then ([], pos)
  else if m.counts = [] then ([], pos)
  else
    let w12 := seed_text.getD (START_TOKEN, START_TOKEN)
    genLoop m.counts entropy w12.1 w12.2 pos max_length

/-- `TrigramModel.generate`: the emitted words joined with single spaces,
paired with the final entropy position. -/
def generate (m : Model) (max_length : ℕ)
    (seed_text : Option (String × String)) (entropy : ℕ → ℚ) (pos : ℕ) :
    String × ℕ :=
  let r := generateWords m max_length seed_text entropy pos
  (String.intercalate " " r.1, r.2)

/-- The third-level dictionary for a context, `{}` when absent. -/
def ctxList (counts : Counts) (w1 w2 : String) : InnerCounts :=
  (dget ((dget counts w1).getD []) w2).getD []

/-- Total stored mass of a two-token context. -/
def contextTotal (counts : Counts) (w1 w2 : String) : ℕ :=
  ((ctxList counts w1 w2).map Prod.snd).sum

/-- The stored count of one trigram, 0 when absent. -/
def trigramCount (counts : Counts) (w1 w2 w3 : String) : ℕ :=
  (dget (ctxList counts w1 w2) w3).getD 0

/-- Sliding-window count of occurrences of `(w1, w2)` followed by a third
token: `p`, `q` are the two tokens before the remaining suffix, so each
element of the suffix witnesses one two-token context followed by it. -/
def ctxOccAux (w1 w2 : String) : String → String → List String → ℕ
  | _, _, [] => 0
  | p, q, r :: rest =>
    (if p = w1 ∧ q = w2 then 1 else 0) + ctxOccAux w1 w2 q r rest

/-- Number of positions of a token sequence at which the context `(w1, w2)`
occurs immediately followed by a third token. -/
def contextOcc (w1 w2 : String) : List String → ℕ
  | a :: b :: rest => ctxOccAux w1 w2 a b rest
  | _ => 0

/-- The padded training token sequence a `fit` call counts trigrams over
(empty for blank text, which `fit` skips). -/
def trainSeq (thr : ℕ) (text : String) : List String :=
  if pyBlank text then []
  else add_padding (substTokens thr (tokenize (clean_text text)))

/-! ## Dictionary lemmas -/

theorem dget_dset_self {α : Type} (l : List (String × α)) (k : String) (v : α) :
    dget (dset l k v) k = some v := by
  induction l with
  | nil => simp [dget, dset]
  | cons p rest ih =>
    obtain ⟨k', v'⟩ := p
    by_cases h : k' = k <;> simp [dget, dset, h, ih]

theorem dget_dset_ne {α : Type} (l : List (String × α)) (k k' : String) (v : α)
    (h : k ≠ k') : dget (dset l k v) k' = dget l k' := by
  induction l with
  | nil => simp [dget, dset, h]
  | cons p rest ih =>
    obtain ⟨k₀, v₀⟩ := p
    by_cases h₀ : k₀ = k
    · subst h₀; simp [dget, dset, h]
    · simp [dget, dset, h₀, ih]

theorem dset_ne_nil {α : Type} (l : List (String × α)) (k : String) (v : α) :
    dset l k v ≠ [] := by
  cases l with
  | nil => simp [dset]
  | cons p rest =>
    obtain ⟨k₀, v₀⟩ := p
    by_cases h : k₀ = k <;> simp [dset, h]

theorem dget_eq_none_iff {α : Type} (l : List (String × α)) (k : String) :
    dget l k = none ↔ k ∉ l.map Prod.fst := by
  induction l with
  | nil => simp [dget]
  | cons p rest ih =>
    obtain ⟨k₀, v₀⟩ := p
    by_cases h : k₀ = k
    · subst h; simp [dget]
    · simp only [dget, h, if_false, ih, List.map_cons, List.mem_cons]
      constructor
      · intro hn hc
        rcases hc with hc | hc
        · exact h hc.symm
        · exact hn hc
      · intro hn hc
        exact hn (Or.inr hc)

theorem sum_bump (l : List (String × ℕ)) (k : String) :
    ((bump l k).map Prod.snd).sum = (l.map Prod.snd).sum + 1 := by
  unfold bump
  induction l with
  | nil => simp [dget, dset]
  | cons p rest ih =>
    obtain ⟨k₀, v₀⟩ := p
    by_cases h : k₀ = k
    · subst h; simp [dget, dset]; omega
    · simp [dget, dset, h] at ih ⊢; omega

/-! ## Count-table conservation (claim C1) -/

theorem ctxList_incr (counts : Counts) (a b c w1 w2 : String) :
    ctxList (incrTrigram counts a b c) w1 w2 =
      if a = w1 ∧ b = w2 then bump (ctxList counts a b) c
      else ctxList counts w1 w2 := by
  unfold incrTrigram ctxList
  by_cases ha : a = w1
  · subst ha
    rw [dget_dset_self]
    by_cases hb : b = w2
    · subst hb
      simp [dget_dset_self]
    · simp only [hb, and_false, if_false]
      rw [Option.getD_some, dget_dset_ne _ _ _ _ hb]
  · simp only [ha, false_and, if_false]
    rw [dget_dset_ne _ _ _ _ ha]

theorem contextTotal_incr (counts : Counts) (a b c w1 w2 : String) :
    contextTotal (incrTrigram counts a b c) w1 w2 =
      contextTotal counts w1 w2 + if a = w1 ∧ b = w2 then 1 else 0 := by
  unfold contextTotal
  rw [ctxList_incr]
  by_cases h : a = w1 ∧ b = w2
  · obtain ⟨h1, h2⟩ := h
    subst h1; subst h2
    simp [sum_bump]
  · simp [h]

theorem contextTotal_countTrigramsAux (w1 w2 : String) (l : List String) :
    ∀ (counts : Counts) (p q : String),
      contextTotal (countTrigramsAux counts p q l) w1 w2 =
        contextTotal counts w1 w2 + ctxOccAux w1 w2 p q l := by
  induction l with
  | nil => intro counts p q; simp [countTrigramsAux, ctxOccAux]
  | cons r rest ih =>
    intro counts p q
    simp only [countTrigramsAux, ctxOccAux]
    rw [ih, contextTotal_incr]
    omega

theorem contextTotal_countTrigrams (counts : Counts) (l : List String)
    (w1 w2 : String) :
    contextTotal (countTrigrams counts l) w1 w2 =
      contextTotal counts w1 w2 + contextOcc w1 w2 l := by
  match l with
  | [] => simp [countTrigrams, contextOcc]
  | [a] => simp [countTrigrams, contextOcc]
  | a :: b :: rest =>
    simp only [countTrigrams, contextOcc]
    exact contextTotal_countTrigramsAux w1 w2 rest counts a b

/-- C1: for every threshold and training text, after `fit` on a fresh model
the total stored mass of any two-token context `(w1, w2)` equals the number
of positions of the padded training sequence at which `(w1, w2)` occurs
immediately followed by a third token. -/
theorem c1_count_conservation (thr : ℕ) (text : String) (w1 w2 : String) :
    contextTotal (fit (mkModel thr) text).counts w1 w2
      = contextOcc w1 w2 (trainSeq thr text) := by
  unfold fit trainSeq
  by_cases h : pyBlank text
  · simp [h, mkModel, contextTotal, ctxList, dget, contextOcc]
  · simp only [h, Bool.false_eq_true, if_false]
    rw [contextTotal_countTrigrams]
    simp [mkModel, contextTotal, ctxList, dget, substTokens]

/-! ## Next-token distribution (claims C2, C5) -/

theorem dget_map_div (l : List (String × ℕ)) (d : ℚ) (k : String) :
    dget (l.map (fun p => (p.1, (p.2 : ℚ) / d))) k
      = (dget l k).map (fun c : ℕ => (c : ℚ) / d) := by
  induction l with
  | nil => simp [dget]
  | cons p rest ih =>
    obtain ⟨k₀, v₀⟩ := p
    by_cases h : k₀ = k <;> simp [dget, h, ih]

/-- Uniform characterization of `_get_next_word_probabilities` through the
context accessor `ctxList`. -/
theorem get_next_word_probabilities_eq (counts : Counts) (w1 w2 : String) :
    get_next_word_probabilities counts w1 w2
      = if contextTotal counts w1 w2 = 0 then []
        else (ctxList counts w1 w2).map
          (fun p => (p.1, (p.2 : ℚ) / (contextTotal counts w1 w2 : ℚ))) := by
  unfold get_next_word_probabilities ctxList contextTotal
  cases hget : dget counts w1 with
  | none => simp [hget, ctxList, dget]
  | some inner =>
    cases hget2 : dget inner w2 with
    | none => simp [hget2, ctxList, dget]
    | some ctx => simp [hget, hget2, ctxList]

/-- C2: the next-token distribution of a context `(w1, w2)` with positive
total mass consists exactly of the pairs `(w3, count/total)` over the
stored third tokens; for a context absent from the table or with zero
total mass it is empty (no smoothing, no fallback). -/
theorem c2_next_token_distribution (counts : Counts) (w1 w2 : String) :
    get_next_word_probabilities counts w1 w2
        = (if contextTotal counts w1 w2 = 0 then []
           else (ctxList counts w1 w2).map
             (fun p => (p.1, (p.2 : ℚ) / (contextTotal counts w1 w2 : ℚ)))) ∧
    ∀ w3 : String,
      dget (get_next_word_probabilities counts w1 w2) w3
        = if contextTotal counts w1 w2 = 0 then none
          else (dget (ctxList counts w1 w2) w3).map
            (fun c : ℕ => (c : ℚ) / (contextTotal counts w1 w2 : ℚ)) := by
  refine ⟨get_next_word_probabilities_eq counts w1 w2, fun w3 => ?_⟩
  rw [get_next_word_probabilities_eq]
  by_cases h : contextTotal counts w1 w2 = 0
  · simp [h, dget]
  · simp [h, dget_map_div]

/-- C5 counterexample: after training on `"the cat sat. the dog sat."`
with threshold 0, the distribution of the context `(the, cat)` holds no
entry for the token `sat` — the observed token is `sat.`, with its period,
so the claimed distribution `{sat: 1.0}` is wrong. -/
theorem c5_counterexample :
    dget (get_next_word_probabilities
        (fit (mkModel 0) "the cat sat. the dog sat.").counts "the" "cat")
      "sat" = none := by
  decide

/-- C5 amended: training with `unk_threshold = 0` on
`"the cat sat. the dog sat."` gives the context `(the, cat)` the
distribution `{sat.: 1.0}` and the context `(the, dog)` the distribution
`{sat.: 1.0}` (the trailing period stays attached to the token). -/
theorem c5_concrete_scenario :
    get_next_word_probabilities
        (fit (mkModel 0) "the cat sat. the dog sat.").counts "the" "cat"
      = [("sat.", (1 : ℚ))] ∧
    get_next_word_probabilities
        (fit (mkModel 0) "the cat sat. the dog sat.").counts "the" "dog"
      = [("sat.", (1 : ℚ))] := by
  constructor
  · rw [get_next_word_probabilities_eq]
    have ht : contextTotal
        (fit (mkModel 0) "the cat sat. the dog sat.").counts "the" "cat" = 1 := by
      decide
    have hc : ctxList
        (fit (mkModel 0) "the cat sat. the dog sat.").counts "the" "cat"
        = [("sat.", 1)] := by
      decide
    rw [ht, hc]
    norm_num
  · rw [get_next_word_probabilities_eq]
    have ht : contextTotal
        (fit (mkModel 0) "the cat sat. the dog sat.").counts "the" "dog" = 1 := by
      decide
    have hc : ctxList
        (fit (mkModel 0) "the cat sat. the dog sat.").counts "the" "dog"
        = [("sat.", 1)] := by
      decide
    rw [ht, hc]
    norm_num

/-! ## Unknown-token substitution (claim C3) -/

theorem handle_unknown_aux_length (thr : ℕ) (all : List String) :
    ∀ (l : List String) (vocab : Vocab),
      (handle_unknown_words_aux thr all vocab l).1.length = l.length := by
  intro l
  induction l with
  | nil => intro vocab; simp [handle_unknown_words_aux]
  | cons t rest ih =>
    intro vocab
    by_cases h1 : t = START_TOKEN ∨ t = END_TOKEN
    · simp [handle_unknown_words_aux, h1, ih]
    · rw [not_or] at h1
      by_cases h2 : rawCount all t ≤ thr <;>
        simp [handle_unknown_words_aux, h1.1, h1.2, h2, ih]

theorem handle_unknown_aux_get (thr : ℕ) (all : List String) :
    ∀ (l : List String) (vocab : Vocab) (i : ℕ) (w : String),
      l[i]? = some w →
      (handle_unknown_words_aux thr all vocab l).1[i]?
        = some (if w = START_TOKEN ∨ w = END_TOKEN then w
                else if rawCount all w ≤ thr then UNK_TOKEN else w) := by
  intro l
  induction l with
  | nil => intro vocab i w h; simp at h
  | cons t rest ih =>
    intro vocab i w h
    cases i with
    | zero =>
      simp only [List.getElem?_cons_zero, Option.some_inj] at h
      subst h
      by_cases h1 : t = START_TOKEN ∨ t = END_TOKEN
      · simp [handle_unknown_words_aux, h1]
      · rw [not_or] at h1
        by_cases h2 : rawCount all t ≤ thr <;>
          simp [handle_unknown_words_aux, h1.1, h1.2, h2]
    | succ j =>
      simp only [List.getElem?_cons_succ] at h
      by_cases h1 : t = START_TOKEN ∨ t = END_TOKEN
      · simp [handle_unknown_words_aux, h1, ih _ j w h]
      · rw [not_or] at h1
        by_cases h2 : rawCount all t ≤ thr <;>
          simp [handle_unknown_words_aux, h1.1, h1.2, h2, ih _ j w h]

/-- C3 counterexample: with threshold 0, the input token `<start>` appears
unchanged in the output of the substitution pass although its raw
first-pass frequency is 0 (sentinel tokens are excluded from pass-1
counting and pass through pass 2), so "a token appears as itself iff its
raw frequency exceeds the threshold" fails. -/
theorem c3_counterexample :
    substTokens 0 ["<start>"] = ["<start>"] ∧
      rawCount ["<start>"] "<start>" = 0 := by
  decide

/-- C3 amended: the substitution pass preserves length, and the output
token at each position is determined as follows: `START`/`END` tokens pass
through unchanged; any other token passes through unchanged when its raw
pass-1 frequency exceeds the threshold and becomes `UNKNOWN` otherwise
(in particular a literal `UNKNOWN` input token, whose pass-1 frequency is
0, is rewritten to `UNKNOWN`, i.e. stays itself). -/
theorem c3_substitution (thr : ℕ) (tokens : List String) (i : ℕ) (w : String)
    (h : tokens[i]? = some w) :
    (substTokens thr tokens).length = tokens.length ∧
    (substTokens thr tokens)[i]?
      = some (if w = START_TOKEN ∨ w = END_TOKEN then w
              else if rawCount tokens w ≤ thr then UNK_TOKEN else w) :=
  ⟨handle_unknown_aux_length thr tokens tokens [],
   handle_unknown_aux_get thr tokens tokens [] i w h⟩

/-- Witness for C3 at a concrete input: in `["a", "a", "b"]` with
threshold 1 the token `a` (frequency 2) survives and `b` (frequency 1)
becomes `<unk>`. -/
theorem c3_substitution_witness :
    ((substTokens 1 ["a", "a", "b"]).length = 3 ∧
      (substTokens 1 ["a", "a", "b"])[0]? = some "a") ∧
    (substTokens 1 ["a", "a", "b"])[2]? = some "<unk>" := by
  have h0 := c3_substitution 1 ["a", "a", "b"] 0 "a" (by decide)
  have h2 := c3_substitution 1 ["a", "a", "b"] 2 "b" (by decide)
  refine ⟨⟨h0.1, ?_⟩, ?_⟩
  · rw [h0.2]
    decide
  · rw [h2.2]
    decide

/-! ## Generation (claims C6, C7, C8) -/

theorem intercalate_space_nil : String.intercalate " " [] = "" := rfl

/-- C6: when the next-token distribution of a context is empty, the sampler
returns `END` deterministically and does not consume the random source
(same result and unchanged position for every entropy stream), and
`generate` started from such a context on a trained model returns the
empty string without consuming randomness. -/
theorem c6_end_short_circuit (m : Model) (w1 w2 : String)
    (entropy : ℕ → ℚ) (pos maxLen : ℕ)
    (hempty : get_next_word_probabilities m.counts w1 w2 = []) :
    sample_next_word m.counts w1 w2 entropy pos = (END_TOKEN, pos) ∧
    (m.trained = true →
      generate m maxLen (some (w1, w2)) entropy pos = ("", pos)) := by
  have hs : sample_next_word m.counts w1 w2 entropy pos = (END_TOKEN, pos) := by
    unfold sample_next_word
    simp [hempty]
  refine ⟨hs, fun ht => ?_⟩
  unfold generate generateWords
  simp only [ht, Bool.true_eq_false, if_false]
  by_cases hc : m.counts = []
  · simp [hc, intercalate_space_nil]
  · simp only [hc, if_false]
    cases maxLen with
    | zero => simp [genLoop, intercalate_space_nil]
    | succ n => simp [genLoop, hs, intercalate_space_nil]

/-- Witness for C6 at a concrete trained model and unseen context. -/
theorem c6_witness :
    sample_next_word (fit (mkModel 0) "a b").counts "x" "y" (fun _ => 0) 5
        = (END_TOKEN, 5) ∧
    ((fit (mkModel 0) "a b").trained = true →
      generate (fit (mkModel 0) "a b") 50 (some ("x", "y")) (fun _ => 0) 5
        = ("", 5)) :=
  c6_end_short_circuit (fit (mkModel 0) "a b") "x" "y" (fun _ => 0) 5 50
    (by decide)

/-- C7: training on blank (empty or whitespace-only) text marks the model
trained while leaving counts and vocabulary unchanged, and `generate` on an
untrained model, or on a model with an empty count table, returns the empty
string immediately without sampling (entropy position unchanged). -/
theorem c7_degenerate_inputs (m : Model) (text : String)
    (h : pyBlank text = true) (maxLen pos : ℕ)
    (seed : Option (String × String)) (entropy : ℕ → ℚ) :
    (fit m text).trained = true ∧ (fit m text).counts = m.counts ∧
    (fit m text).vocab = m.vocab ∧
    (m.trained = false → generate m maxLen seed entropy pos = ("", pos)) ∧
    (m.counts = [] → generate m maxLen seed entropy pos = ("", pos)) := by
  refine ⟨?_, ?_, ?_, ?_, ?_⟩
  · unfold fit; simp [h]
  · unfold fit; simp [h]
  · unfold fit; simp [h]
  · intro ht
    unfold generate generateWords
    simp [ht, intercalate_space_nil]
  · intro hc
    unfold generate generateWords
    by_cases htr : m.trained = false <;> simp [htr, hc, intercalate_space_nil]

/-- Witness for C7 at a freshly constructed model and empty text. -/
theorem c7_witness :
    (fit (mkModel 1) "").trained = true ∧
    (fit (mkModel 1) "").counts = (mkModel 1).counts ∧
    (fit (mkModel 1) "").vocab = (mkModel 1).vocab ∧
    ((mkModel 1).trained = false →
      generate (mkModel 1) 50 none (fun _ => 0) 0 = ("", 0)) ∧
    ((mkModel 1).counts = [] →
      generate (mkModel 1) 50 none (fun _ => 0) 0 = ("", 0)) :=
  c7_degenerate_inputs (mkModel 1) "" (by decide) 50 0 none (fun _ => 0)

theorem genLoop_length_le (counts : Counts) (entropy : ℕ → ℚ) :
    ∀ (fuel : ℕ) (w1 w2 : String) (pos : ℕ),
      (genLoop counts entropy w1 w2 pos fuel).1.length ≤ fuel := by
  intro fuel
  induction fuel with
  | zero => intro w1 w2 pos; simp [genLoop]
  | succ n ih =>
    intro w1 w2 pos
    simp only [genLoop]
    by_cases hE : (sample_next_word counts w1 w2 entropy pos).1 = END_TOKEN
    · simp [hE]
    · simp only [hE, if_false]
      by_cases hS : (sample_next_word counts w1 w2 entropy pos).1 = START_TOKEN
      · simp only [hS, if_true]
        exact le_trans (ih _ _ _) (Nat.le_succ n)
      · simp only [hS, if_false, List.length_cons]
        exact Nat.succ_le_succ (ih _ _ _)

/-- C8: for every model, seed, entropy source and `max_length`, `generate`
emits at most `max_length` tokens, and with `max_length = 0` it returns the
empty string with the entropy source untouched. -/
theorem c8_length_cap (m : Model) (max_length : ℕ)
    (seed : Option (String × String)) (entropy : ℕ → ℚ) (pos : ℕ) :
    (generateWords m max_length seed entropy pos).1.length ≤ max_length ∧
    generate m 0 seed entropy pos = ("", pos) := by
  constructor
  · unfold generateWords
    by_cases h1 : m.trained = false
    · simp [h1]
    · simp only [h1, if_false]
      by_cases h2 : m.counts = []
      · simp [h2]
      · simp only [h2, if_false]
        exact genLoop_length_le _ _ _ _ _ _
  · unfold generate generateWords
    by_cases h1 : m.trained = false
    · simp [h1, intercalate_space_nil]
    · by_cases h2 : m.counts = [] <;>
        simp [h1, h2, genLoop, intercalate_space_nil]

/-! ## Character-level lemmas -/

theorem toNat_pyToLower_of (c : Char) (h : 65 ≤ c.toNat ∧ c.toNat ≤ 90) :
    (pyToLower c).toNat = c.toNat + 32 := by
  unfold pyToLower
  rw [dif_pos h]
  rfl

theorem pyToLower_fix (c : Char) (h : ¬(65 ≤ c.toNat ∧ c.toNat ≤ 90)) :
    pyToLower c = c := dif_neg h

theorem isPySpace_false_of_ge (c : Char) (h : 65 ≤ c.toNat) :
    isPySpace c = false := by
  simp only [isPySpace, Bool.or_eq_false_iff, decide_eq_false_iff_not]
  omega

theorem isPySpace_pyToLower (c : Char) :
    isPySpace (pyToLower c) = isPySpace c := by
  by_cases h : 65 ≤ c.toNat ∧ c.toNat ≤ 90
  · rw [isPySpace_false_of_ge c h.1, isPySpace_false_of_ge]
    rw [toNat_pyToLower_of c h]
    omega
  · rw [pyToLower_fix c h]

theorem pyToLower_idem (c : Char) :
    pyToLower (pyToLower c) = pyToLower c := by
  by_cases h : 65 ≤ c.toNat ∧ c.toNat ≤ 90
  · apply pyToLower_fix
    rw [toNat_pyToLower_of c h]
    omega
  · simp [pyToLower_fix c h]

theorem mem_collapseWsAux (c : Char) (l : List Char) :
    ∀ fl : Bool, c ∈ collapseWsAux fl l →
      c = ' ' ∨ (c ∈ l ∧ isPySpace c = false) := by
  induction l with
  | nil => intro fl h; simp [collapseWsAux] at h
  | cons d rest ih =>
    intro fl h
    by_cases hd : isPySpace d = true
    · cases fl with
      | true =>
        simp only [collapseWsAux, hd, if_true] at h
        rcases ih true h with h1 | ⟨h2, h3⟩
        · exact Or.inl h1
        · exact Or.inr ⟨List.mem_cons_of_mem d h2, h3⟩
      | false =>
        simp only [collapseWsAux, hd, if_true, Bool.false_eq_true, if_false,
          List.mem_cons] at h
        rcases h with h1 | h
        · exact Or.inl h1
        · rcases ih true h with h1 | ⟨h2, h3⟩
          · exact Or.inl h1
          · exact Or.inr ⟨List.mem_cons_of_mem d h2, h3⟩
    · simp only [collapseWsAux, hd, Bool.false_eq_true, if_false,
        List.mem_cons] at h
      rcases h with h1 | h
      · subst h1
        exact Or.inr ⟨List.mem_cons_self _ _, by simpa using hd⟩
      · rcases ih false h with h1 | ⟨h2, h3⟩
        · exact Or.inl h1
        · exact Or.inr ⟨List.mem_cons_of_mem d h2, h3⟩

theorem mem_collapseWsAux_of_mem (c : Char) (hc : isPySpace c = false)
    (l : List Char) :
    ∀ fl : Bool, c ∈ l → c ∈ collapseWsAux fl l := by
  induction l with
  | nil => intro fl h; simp at h
  | cons d rest ih =>
    intro fl h
    rw [List.mem_cons] at h
    by_cases hd : isPySpace d = true
    · have hcr : c ∈ rest := by
        rcases h with rfl | h1
        · simp [hc] at hd
        · exact h1
      cases fl with
      | true => simpa only [collapseWsAux, hd, if_true] using ih true hcr
      | false =>
        simp only [collapseWsAux, hd, if_true, Bool.false_eq_true, if_false,
          List.mem_cons]
        exact Or.inr (ih true hcr)
    · simp only [collapseWsAux, hd, Bool.false_eq_true, if_false,
        List.mem_cons]
      rcases h with h1 | h1
      · exact Or.inl h1
      · exact Or.inr (ih false h1)

theorem mem_dropWhile_of_mem {c : Char} (hc : isPySpace c = false) :
    ∀ l : List Char, c ∈ l → c ∈ l.dropWhile isPySpace := by
  intro l
  induction l with
  | nil => simp
  | cons d rest ih =>
    intro h
    rw [List.mem_cons] at h
    rw [List.dropWhile_cons]
    by_cases hd : isPySpace d = true
    · rw [if_pos hd]
      rcases h with rfl | h1
      · simp [hc] at hd
      · exact ih h1
    · rw [if_neg hd]
      rw [List.mem_cons]
      exact h

theorem mem_pyStrip_of_mem {c : Char} (hc : isPySpace c = false)
    {l : List Char} (h : c ∈ l) : c ∈ pyStrip l := by
  unfold pyStrip
  rw [List.mem_reverse]
  apply mem_dropWhile_of_mem hc
  rw [List.mem_reverse]
  exact mem_dropWhile_of_mem hc _ h

theorem pyWordsAux_ne_nil_of_acc (l : List Char) :
    ∀ acc : List Char, acc ≠ [] → pyWordsAux acc l ≠ [] := by
  induction l with
  | nil => intro acc h; simp [pyWordsAux, h]
  | cons c rest ih =>
    intro acc h
    by_cases hc : isPySpace c = true
    · simp only [pyWordsAux, hc, if_true, h, if_false]
      simp
    · simp only [pyWordsAux, hc, if_false]
      exact ih _ (by simp)

theorem pyWordsAux_ne_nil {c : Char} (hc : isPySpace c = false)
    (l : List Char) : ∀ acc : List Char, c ∈ l → pyWordsAux acc l ≠ [] := by
  induction l with
  | nil => intro acc h; simp at h
  | cons d rest ih =>
    intro acc hmem
    by_cases hd : isPySpace d = true
    · have hcr : c ∈ rest := by
        rcases List.mem_cons.mp hmem with rfl | h1
        · simp [hc] at hd
        · exact h1
      by_cases ha : acc = []
      · simp only [pyWordsAux, hd, if_true, ha, if_true]
        exact ih _ hcr
      · simp only [pyWordsAux, hd, if_true, ha, if_false]
        simp
    · simp only [pyWordsAux, hd, if_false]
      exact pyWordsAux_ne_nil_of_acc rest _ (by simp)

/-! ## Training on non-blank text (claim C4) -/

theorem exists_nonspace_of_not_blank {s : String} (h : pyBlank s = false) :
    ∃ c ∈ s.data, isPySpace c = false := by
  unfold pyBlank at h
  rw [List.all_eq_false] at h
  obtain ⟨c, hc1, hc2⟩ := h
  exact ⟨c, hc1, by simpa using hc2⟩

theorem tokenize_clean_ne_nil {text : String} (h : pyBlank text = false) :
    tokenize (clean_text text) ≠ [] := by
  obtain ⟨c, hc1, hc2⟩ := exists_nonspace_of_not_blank h
  have hws : isPySpace (pyToLower c) = false := by
    rw [isPySpace_pyToLower]; exact hc2
  have h2 : pyToLower c ∈ collapseWs (text.data.map pyToLower) :=
    mem_collapseWsAux_of_mem _ hws _ false (List.mem_map_of_mem _ hc1)
  have h3 : pyToLower c ∈ (clean_text text).data :=
    mem_pyStrip_of_mem hws h2
  have h4 : pyWords (clean_text text).data ≠ [] :=
    pyWordsAux_ne_nil hws _ [] h3
  unfold tokenize
  simpa using h4

theorem substTokens_ne_nil {thr : ℕ} {tokens : List String}
    (h : tokens ≠ []) : substTokens thr tokens ≠ [] := by
  intro hc
  have hl := handle_unknown_aux_length thr tokens tokens []
  rw [substTokens] at hc
  rw [hc] at hl
  simp only [List.length_nil] at hl
  exact h (List.length_eq_zero.mp hl.symm)

theorem incrTrigram_ne_nil (counts : Counts) (a b c : String) :
    incrTrigram counts a b c ≠ [] := by
  unfold incrTrigram
  exact dset_ne_nil _ _ _

theorem countTrigramsAux_ne_nil (l : List String) :
    ∀ (counts : Counts) (p q : String),
      counts ≠ [] ∨ l ≠ [] → countTrigramsAux counts p q l ≠ [] := by
  induction l with
  | nil =>
    intro counts p q h
    rcases h with h | h
    · simpa [countTrigramsAux] using h
    · simp at h
  | cons r rest ih =>
    intro counts p q _
    simp only [countTrigramsAux]
    exact ih _ _ _ (Or.inl (incrTrigram_ne_nil _ _ _ _))

/-- C4 counterexample: the text `" "` is a non-empty string, yet after
`fit` the count table is empty (the guard `not text.strip()` treats
whitespace-only text as the blank no-op case), so "non-empty training
text yields a non-empty count table" fails as stated. -/
theorem c4_counterexample :
    " " ≠ "" ∧ (fit (mkModel 1) " ").trained = true ∧
      (fit (mkModel 1) " ").counts = [] := by
  decide

/-- C4 amended: for every training text containing at least one
non-whitespace character (so that it survives the blank-input guard),
after `fit` on a fresh model the trained flag is true and the trigram
count table is non-empty. -/
theorem c4_trained_nonempty (thr : ℕ) (text : String)
    (h : pyBlank text = false) :
    (fit (mkModel thr) text).trained = true ∧
      (fit (mkModel thr) text).counts ≠ [] := by
  constructor
  · unfold fit
    by_cases hb : pyBlank text <;> simp [hb]
  · unfold fit
    rw [if_neg (by simp [h])]
    simp only [mkModel]
    have htok : tokenize (clean_text text) ≠ [] := tokenize_clean_ne_nil h
    have hsub : (handle_unknown_words_aux thr (tokenize (clean_text text))
        [] (tokenize (clean_text text))).1 ≠ [] :=
      substTokens_ne_nil htok
    obtain ⟨t, ts, hts⟩ := List.exists_cons_of_ne_nil hsub
    rw [hts]
    unfold add_padding
    rw [if_neg (by simp)]
    show countTrigramsAux _ _ _ ((t :: ts) ++ [END_TOKEN]) ≠ []
    exact countTrigramsAux_ne_nil _ _ _ _ (Or.inr (by simp))

/-- Witness for C4 at the concrete text `"a"`. -/
theorem c4_witness :
    (fit (mkModel 1) "a").trained = true ∧
      (fit (mkModel 1) "a").counts ≠ [] :=
  c4_trained_nonempty 1 "a" (by decide)

/-! ## Idempotence of normalization (claim C9) -/

/-- Adjacent-character invariant of collapsed text: no whitespace character
is immediately followed by another whitespace character. -/
def noTwoWs (a b : Char) : Prop := isPySpace a = true → isPySpace b = false

theorem head_collapseWsAux_true (l : List Char) :
    ∀ c ∈ (collapseWsAux true l).head?, isPySpace c = false := by
  induction l with
  | nil => simp [collapseWsAux]
  | cons d rest ih =>
    intro c hc
    by_cases hd : isPySpace d = true
    · simp only [collapseWsAux, hd, if_true] at hc
      exact ih c hc
    · simp only [collapseWsAux, hd, Bool.false_eq_true, if_false,
        List.head?_cons, Option.mem_some_iff] at hc
      subst hc
      simpa using hd

theorem chain'_collapseWsAux (l : List Char) :
    ∀ fl : Bool, List.Chain' noTwoWs (collapseWsAux fl l) := by
  induction l with
  | nil => intro fl; simp [collapseWsAux]
  | cons d rest ih =>
    intro fl
    by_cases hd : isPySpace d = true
    · cases fl with
      | true => simpa only [collapseWsAux, hd, if_true] using ih true
      | false =>
        simp only [collapseWsAux, hd, if_true, Bool.false_eq_true, if_false]
        rw [List.chain'_cons']
        exact ⟨fun y hy => fun _ => head_collapseWsAux_true rest y hy, ih true⟩
    · simp only [collapseWsAux, hd, Bool.false_eq_true, if_false]
      rw [List.chain'_cons']
      refine ⟨fun y _ => ?_, ih false⟩
      intro hws
      simp [hws] at hd

theorem collapseWsAux_true_eq_false (l : List Char)
    (h : ∀ c ∈ l.head?, isPySpace c = false) :
    collapseWsAux true l = collapseWsAux false l := by
  cases l with
  | nil => rfl
  | cons d rest =>
    have hd : isPySpace d = false := h d (by simp)
    simp [collapseWsAux, hd]

theorem collapseWsAux_eq_self (z : List Char)
    (hmem : ∀ c ∈ z, isPySpace c = true → c = ' ')
    (hch : List.Chain' noTwoWs z) :
    collapseWsAux false z = z := by
  induction z with
  | nil => rfl
  | cons c rest ih =>
    rw [List.chain'_cons'] at hch
    obtain ⟨hR, hch'⟩ := hch
    by_cases hc : isPySpace c = true
    · have hc' : c = ' ' := hmem c (by simp) hc
      have hhead : ∀ y ∈ rest.head?, isPySpace y = false :=
        fun y hy => hR y hy hc
      simp only [collapseWsAux, hc, if_true, Bool.false_eq_true, if_false]
      rw [collapseWsAux_true_eq_false rest hhead,
        ih (fun a ha hws => hmem a (by simp [ha]) hws) hch', hc']
    · simp only [collapseWsAux, hc, Bool.false_eq_true, if_false]
      rw [ih (fun a ha hws => hmem a (by simp [ha]) hws) hch']

theorem dropWhile_eq_self_of_head {l : List Char}
    (h : ∀ c ∈ l.head?, isPySpace c = false) :
    l.dropWhile isPySpace = l := by
  cases l with
  | nil => rfl
  | cons d rest =>
    have hd : isPySpace d = false := h d (by simp)
    rw [List.dropWhile_cons, hd]
    simp

theorem head?_dropWhile (l : List Char) :
    ∀ c ∈ (l.dropWhile isPySpace).head?, isPySpace c = false := by
  induction l with
  | nil => simp
  | cons d rest ih =>
    intro c hc
    rw [List.dropWhile_cons] at hc
    by_cases hd : isPySpace d = true
    · rw [if_pos hd] at hc
      exact ih c hc
    · rw [if_neg hd] at hc
      simp only [List.head?_cons, Option.mem_some_iff] at hc
      subst hc
      simpa using hd

theorem pyStrip_prefix_dropWhile (l : List Char) :
    pyStrip l <+: l.dropWhile isPySpace := by
  unfold pyStrip
  conv_rhs => rw [← List.reverse_reverse (l.dropWhile isPySpace)]
  rw [List.reverse_prefix]
  exact List.dropWhile_suffix _

theorem pyStrip_within (l : List Char) : pyStrip l <:+: l :=
  List.IsInfix.trans (List.IsPrefix.isInfix (pyStrip_prefix_dropWhile l))
    (List.IsSuffix.isInfix (List.dropWhile_suffix _))

theorem mem_of_mem_pyStrip {c : Char} {l : List Char}
    (h : c ∈ pyStrip l) : c ∈ l :=
  List.Sublist.mem h (List.IsInfix.sublist (pyStrip_within l))

theorem prefix_head? {α : Type} {l₁ l₂ : List α} (h : l₁ <+: l₂)
    (hne : l₁ ≠ []) : l₂.head? = l₁.head? := by
  obtain ⟨t, rfl⟩ := h
  cases l₁ with
  | nil => simp at hne
  | cons a l => simp

theorem head?_pyStrip (l : List Char) :
    ∀ c ∈ (pyStrip l).head?, isPySpace c = false := by
  intro c hc
  have hne : pyStrip l ≠ [] := by
    intro h0
    rw [h0] at hc
    simp at hc
  have := prefix_head? (pyStrip_prefix_dropWhile l) hne
  exact head?_dropWhile l c (by rw [this]; exact hc)

theorem reverse_pyStrip_dropWhile (l : List Char) :
    (pyStrip l).reverse.dropWhile isPySpace = (pyStrip l).reverse := by
  unfold pyStrip
  rw [List.reverse_reverse]
  exact dropWhile_eq_self_of_head (head?_dropWhile _)

theorem pyStrip_pyStrip (l : List Char) :
    pyStrip (pyStrip l) = pyStrip l := by
  conv_lhs => rw [pyStrip]
  rw [dropWhile_eq_self_of_head (head?_pyStrip l), reverse_pyStrip_dropWhile,
    List.reverse_reverse]

theorem map_eq_self_of_fix {α : Type} (f : α → α) :
    ∀ l : List α, (∀ c ∈ l, f c = c) → l.map f = l := by
  intro l
  induction l with
  | nil => simp
  | cons a t ih =>
    intro h
    simp only [List.map_cons]
    rw [h a (by simp), ih (fun c hc => h c (by simp [hc]))]

/-- C9: text normalization is idempotent — cleaning an already-cleaned
string (lowercase, whitespace runs collapsed to single spaces, trimmed) is
a fixed point: `clean(clean(x)) = clean(x)` for every input string. -/
theorem c9_clean_idempotent (x : String) :
    clean_text (clean_text x) = clean_text x := by
  have hfix : ∀ c ∈ pyStrip (collapseWs (x.data.map pyToLower)),
      pyToLower c = c := by
    intro c hc
    have hc2 := mem_of_mem_pyStrip hc
    rcases mem_collapseWsAux c _ false hc2 with rfl | ⟨hm, _⟩
    · decide
    · obtain ⟨c₀, _, rfl⟩ := List.mem_map.mp hm
      exact pyToLower_idem c₀
  have hws : ∀ c ∈ pyStrip (collapseWs (x.data.map pyToLower)),
      isPySpace c = true → c = ' ' := by
    intro c hc hcs
    rcases mem_collapseWsAux c _ false (mem_of_mem_pyStrip hc) with rfl | ⟨_, h2⟩
    · rfl
    · rw [hcs] at h2
      exact absurd h2 (by simp)
  have hch : List.Chain' noTwoWs (pyStrip (collapseWs (x.data.map pyToLower))) :=
    List.Chain'.infix (chain'_collapseWsAux _ false) (pyStrip_within _)
  show (⟨pyStrip (collapseWs ((pyStrip (collapseWs (x.data.map pyToLower))).map
      pyToLower))⟩ : String) = clean_text x
  rw [map_eq_self_of_fix _ _ hfix]
  show (⟨pyStrip (collapseWsAux false (pyStrip (collapseWs
      (x.data.map pyToLower))))⟩ : String) = clean_text x
  rw [collapseWsAux_eq_self _ hws hch, pyStrip_pyStrip]
  rfl

/-! ## The START sentinel in stored trigrams (claim C10) -/

/-- Repeated training: `fit` applied cumulatively over a list of texts. -/
def fitAll (m : Model) (texts : List String) : Model :=
  texts.foldl fit m

theorem startfree_incr (counts : Counts) (a b c : String)
    (hc : c ≠ START_TOKEN)
    (h : ∀ w1 w2, dget (ctxList counts w1 w2) START_TOKEN = none) :
    ∀ w1 w2, dget (ctxList (incrTrigram counts a b c) w1 w2)
      START_TOKEN = none := by
  intro w1 w2
  rw [ctxList_incr]
  by_cases hab : a = w1 ∧ b = w2
  · rw [if_pos hab]
    unfold bump
    rw [dget_dset_ne _ _ _ _ hc]
    exact h a b
  · rw [if_neg hab]
    exact h w1 w2

theorem startfree_countTrigramsAux (l : List String) :
    ∀ (counts : Counts) (p q : String),
      (∀ x ∈ l, x ≠ START_TOKEN) →
      (∀ w1 w2, dget (ctxList counts w1 w2) START_TOKEN = none) →
      ∀ w1 w2, dget (ctxList (countTrigramsAux counts p q l) w1 w2)
        START_TOKEN = none := by
  induction l with
  | nil => intro counts p q _ h; exact h
  | cons r rest ih =>
    intro counts p q hl h
    simp only [countTrigramsAux]
    exact ih _ _ _ (fun x hx => hl x (by simp [hx]))
      (startfree_incr counts p q r (hl r (by simp)) h)

theorem mem_handle_unknown_aux (thr : ℕ) (all : List String) :
    ∀ (l : List String) (vocab : Vocab) (x : String),
      x ∈ (handle_unknown_words_aux thr all vocab l).1 →
      x ∈ l ∨ x = UNK_TOKEN := by
  intro l
  induction l with
  | nil => intro vocab x h; simp [handle_unknown_words_aux] at h
  | cons t rest ih =>
    intro vocab x h
    by_cases h1 : t = START_TOKEN ∨ t = END_TOKEN
    · simp only [handle_unknown_words_aux, h1, or_true, true_or, if_true,
        decide_eq_true_eq] at h
      rw [show (decide (t = START_TOKEN) || decide (t = END_TOKEN)) = true by
        rcases h1 with h1 | h1 <;> simp [h1]] at h
      simp only [if_true, List.mem_cons] at h
      rcases h with rfl | h
      · exact Or.inl (by simp)
      · rcases ih _ _ h with h2 | h2
        · exact Or.inl (by simp [h2])
        · exact Or.inr h2
    · rw [not_or] at h1
      by_cases h2 : rawCount all t ≤ thr
      · simp only [handle_unknown_words_aux, h1.1, h1.2, h2, decide_False,
          Bool.or_self, Bool.false_eq_true, if_false, if_true,
          List.mem_cons] at h
        rcases h with rfl | h
        · exact Or.inr rfl
        · rcases ih _ _ h with h3 | h3
          · exact Or.inl (by simp [h3])
          · exact Or.inr h3
      · simp only [handle_unknown_words_aux, h1.1, h1.2, h2, decide_False,
          Bool.or_self, Bool.false_eq_true, if_false, List.mem_cons] at h
        rcases h with rfl | h
        · exact Or.inl (by simp)
        · rcases ih _ _ h with h3 | h3
          · exact Or.inl (by simp [h3])
          · exact Or.inr h3

theorem startfree_fit (m : Model) (text : String)
    (htext : START_TOKEN ∉ tokenize (clean_text text))
    (h : ∀ w1 w2, dget (ctxList m.counts w1 w2) START_TOKEN = none) :
    ∀ w1 w2, dget (ctxList (fit m text).counts w1 w2) START_TOKEN = none := by
  unfold fit
  by_cases hb : pyBlank text
  · simpa [hb] using h
  · simp only [hb, Bool.false_eq_true, if_false]
    cases hsub : (handle_unknown_words_aux m.unk_threshold
        (tokenize (clean_text text)) m.vocab (tokenize (clean_text text))).1 with
    | nil =>
      simp only [hsub, add_padding, if_pos rfl]
      simpa [countTrigrams] using h
    | cons t ts =>
      simp only [hsub, add_padding]
      rw [if_neg (by simp)]
      show ∀ w1 w2, dget (ctxList (countTrigramsAux m.counts START_TOKEN
        START_TOKEN ((t :: ts) ++ [END_TOKEN])) w1 w2) START_TOKEN = none
      apply startfree_countTrigramsAux _ _ _ _ _ h
      intro x hx
      rw [List.mem_append] at hx
      rcases hx with hx | hx
      · have := mem_handle_unknown_aux m.unk_threshold _ _ _ x
          (by rw [hsub]; exact hx)
        rcases this with h2 | h2
        · intro he; rw [he] at h2; exact htext h2
        · rw [h2]; decide
      · simp only [List.mem_singleton] at hx
        rw [hx]; decide

theorem startfree_fitAll (texts : List String) :
    ∀ m : Model, (∀ t ∈ texts, START_TOKEN ∉ tokenize (clean_text t)) →
      (∀ w1 w2, dget (ctxList m.counts w1 w2) START_TOKEN = none) →
      ∀ w1 w2, dget (ctxList (fitAll m texts).counts w1 w2)
        START_TOKEN = none := by
  induction texts with
  | nil => intro m _ h; exact h
  | cons t rest ih =>
    intro m hall h
    show ∀ w1 w2, dget (ctxList (fitAll (fit m t) rest).counts w1 w2)
      START_TOKEN = none
    exact ih (fit m t) (fun x hx => hall x (by simp [hx]))
      (startfree_fit m t (hall t (by simp)) h)

theorem probs_start_none (counts : Counts)
    (h : ∀ w1 w2, dget (ctxList counts w1 w2) START_TOKEN = none)
    (w1 w2 : String) :
    dget (get_next_word_probabilities counts w1 w2) START_TOKEN = none := by
  rw [get_next_word_probabilities_eq]
  by_cases ht : contextTotal counts w1 w2 = 0
  · simp [ht, dget]
  · rw [if_neg ht, dget_map_div, h w1 w2]
    rfl

theorem pickWeighted_mem (l : List (String × ℚ)) (h : l ≠ []) :
    ∀ u : ℚ, pickWeighted l u ∈ l.map Prod.fst := by
  induction l with
  | nil => simp at h
  | cons p rest ih =>
    intro u
    cases rest with
    | nil =>
      obtain ⟨w, q⟩ := p
      simp [pickWeighted]
    | cons p2 rest2 =>
      obtain ⟨w, q⟩ := p
      simp only [pickWeighted]
      by_cases hu : u < q
      · simp [hu]
      · rw [if_neg hu]
        simp only [List.map_cons, List.mem_cons]
        right
        simpa using ih (by simp) (u - q)

theorem sample_ne_start (counts : Counts)
    (h : ∀ w1 w2, dget (ctxList counts w1 w2) START_TOKEN = none)
    (w1 w2 : String) (entropy : ℕ → ℚ) (pos : ℕ) :
    (sample_next_word counts w1 w2 entropy pos).1 ≠ START_TOKEN := by
  unfold sample_next_word
  by_cases hp : get_next_word_probabilities counts w1 w2 = []
  · rw [hp, if_pos rfl]
    show END_TOKEN ≠ START_TOKEN
    decide
  · simp only [hp, if_false]
    by_cases ht : contextTotal counts w1 w2 = 0
    · rw [get_next_word_probabilities_eq] at hp
      simp [ht] at hp
    · have hm := pickWeighted_mem _ hp (entropy pos)
      have hkeys : (get_next_word_probabilities counts w1 w2).map Prod.fst
          = (ctxList counts w1 w2).map Prod.fst := by
        rw [get_next_word_probabilities_eq, if_neg ht, List.map_map]
        apply List.map_congr_left
        intro a _
        rfl
      rw [hkeys] at hm
      have hnot : START_TOKEN ∉ (ctxList counts w1 w2).map Prod.fst :=
        (dget_eq_none_iff _ _).mp (h w1 w2)
      show pickWeighted (get_next_word_probabilities counts w1 w2)
        (entropy pos) ≠ START_TOKEN
      intro he
      rw [he] at hm
      exact hnot hm

theorem genLoop_no_start (counts : Counts) (entropy : ℕ → ℚ) :
    ∀ (fuel : ℕ) (w1 w2 : String) (pos : ℕ),
      START_TOKEN ∉ (genLoop counts entropy w1 w2 pos fuel).1 := by
  intro fuel
  induction fuel with
  | zero => intro w1 w2 pos; simp [genLoop]
  | succ n ih =>
    intro w1 w2 pos
    simp only [genLoop]
    by_cases hE : (sample_next_word counts w1 w2 entropy pos).1 = END_TOKEN
    · simp [hE]
    · simp only [hE, if_false]
      by_cases hS : (sample_next_word counts w1 w2 entropy pos).1 = START_TOKEN
      · simp only [hS, if_true]
        exact ih _ _ _
      · simp only [hS, if_false, List.mem_cons, not_or]
        exact ⟨fun he => hS he.symm, ih _ _ _⟩

theorem generateWords_no_start (m : Model) (maxLen : ℕ)
    (seed : Option (String × String)) (entropy : ℕ → ℚ) (pos : ℕ) :
    START_TOKEN ∉ (generateWords m maxLen seed entropy pos).1 := by
  unfold generateWords
  by_cases h1 : m.trained = false
  · simp [h1]
  · simp only [h1, if_false]
    by_cases h2 : m.counts = []
    · simp [h2]
    · simp only [h2, if_false]
      exact genLoop_no_start _ _ _ _ _ _

/-- C10 counterexample: training a fresh model on the literal text
`"<start>"` stores the trigram (START, START, START) with count 1 — the
user token collides with the sentinel string, so "START never occurs as the
third component of a stored trigram" fails for arbitrary training texts. -/
theorem c10_counterexample :
    dget (ctxList (fit (mkModel 1) "<start>").counts START_TOKEN START_TOKEN)
      START_TOKEN = some 1 := by
  decide

/-- C10 amended: for every sequence of `fit` calls on texts none of whose
tokens is the literal START string, the START sentinel never occurs as the
third component of a stored trigram (it carries zero mass in every
next-token distribution), the sampler never returns START, and — for all
models whatsoever — `generate` never emits START in its output. -/
theorem c10_start_invariant (thr : ℕ) (texts : List String)
    (h : ∀ t ∈ texts, START_TOKEN ∉ tokenize (clean_text t)) :
    (∀ w1 w2, dget (ctxList (fitAll (mkModel thr) texts).counts w1 w2)
        START_TOKEN = none) ∧
    (∀ w1 w2, dget (get_next_word_probabilities
        (fitAll (mkModel thr) texts).counts w1 w2) START_TOKEN = none) ∧
    (∀ (w1 w2 : String) (entropy : ℕ → ℚ) (pos : ℕ),
      (sample_next_word (fitAll (mkModel thr) texts).counts
        w1 w2 entropy pos).1 ≠ START_TOKEN) ∧
    (∀ (maxLen : ℕ) (seed : Option (String × String)) (entropy : ℕ → ℚ)
        (pos : ℕ),
      START_TOKEN ∉ (generateWords (fitAll (mkModel thr) texts) maxLen seed
        entropy pos).1) := by
  have hfree : ∀ w1 w2, dget (ctxList (fitAll (mkModel thr) texts).counts
      w1 w2) START_TOKEN = none :=
    startfree_fitAll texts (mkModel thr) h
      (fun w1 w2 => by simp [mkModel, ctxList, dget])
  exact ⟨hfree, fun w1 w2 => probs_start_none _ hfree w1 w2,
    fun w1 w2 entropy pos => sample_ne_start _ hfree w1 w2 entropy pos,
    fun maxLen seed entropy pos => generateWords_no_start _ _ _ _ _⟩

/-- Witness for C10 at a concrete training set. -/
theorem c10_witness :
    (∀ w1 w2, dget (ctxList (fitAll (mkModel 0) ["a b"]).counts w1 w2)
        START_TOKEN = none) ∧
    (∀ w1 w2, dget (get_next_word_probabilities
        (fitAll (mkModel 0) ["a b"]).counts w1 w2) START_TOKEN = none) ∧
    (∀ (w1 w2 : String) (entropy : ℕ → ℚ) (pos : ℕ),
      (sample_next_word (fitAll (mkModel 0) ["a b"]).counts
        w1 w2 entropy pos).1 ≠ START_TOKEN) ∧
    (∀ (maxLen : ℕ) (seed : Option (String × String)) (entropy : ℕ → ℚ)
        (pos : ℕ),
      START_TOKEN ∉ (generateWords (fitAll (mkModel 0) ["a b"]) maxLen seed
        entropy pos).1) :=
  c10_start_invariant 0 ["a b"] (by decide)
